import Mathlib

/-!
Shallow embedding of the pod entity of the cri-resource-manager state cache
(`pkg/cri/resource-manager/cache/pod.go`) and proofs about its
resource-requirement parsing and QoS classification.

Modelling conventions:
* Go maps (`map[string]T`) are embedded as association lists
  `List (String × T)` with unique keys by construction; iteration order is
  the list order (Go map iteration order is unspecified, and every result
  proved here is about a single fixed iteration order).
* Kubernetes `resource.Quantity` values are embedded as `Int`
  (`Cmp` is integer comparison, `Add` is integer addition).
* `v1.PodQOSClass` values are the literal strings `"Guaranteed"`,
  `"Burstable"` and `"BestEffort"`; the empty string is the unset value.
* A Go nil-pointer dereference is embedded as `Option.none` in the result
  of the operation that would panic.
* The external JSON decoder (`encoding/json.Unmarshal`) is an explicit
  function parameter `jsonDec`; decoding either succeeds with a full
  `PodResourceRequirements` value or fails leaving the freshly allocated
  model untouched.
-/

namespace CriCache

/-- Association-list lookup, the embedding of Go map indexing `m[k]`. -/
def lookupA {α : Type} : List (String × α) → String → Option α
  | [], _ => none
  | (k', v) :: rest, k => if k' = k then some v else lookupA rest k

/-- Association-list store, the embedding of Go map assignment `m[k] = v`:
replaces the value in place if the key exists, otherwise appends. -/
def storeA {α : Type} : List (String × α) → String → α → List (String × α)
  | [], k, v => [(k, v)]
  | (k', v') :: rest, k, v =>
    if k' = k then (k, v) :: rest else (k', v') :: storeA rest k v

/-- Per-container requests and limits from the webhook annotation
(`v1.ResourceRequirements` restricted to what the cache uses). -/
structure ContainerResources where
  Requests : List (String × Int)
  Limits : List (String × Int)
deriving DecidableEq, Repr

/-- `PodResourceRequirements`: per container id the requests/limits, plus the
set of init-container ids (a map used as a membership set). -/
structure PodResourceRequirements where
  Containers : List (String × ContainerResources) := []
  InitContainers : List (String × Bool) := []
deriving DecidableEq, Repr

/-- The zero value of `PodResourceRequirements`, as allocated by
`&PodResourceRequirements{}`. -/
def zeroPRR : PodResourceRequirements := {}

/-- Modelled from the spec: the sibling Container entity (not under the
visible source), reduced to what the pod queries use — its id and the id of
its owning pod. -/
structure Container where
  Id : String
  PodId : String
deriving DecidableEq, Repr

/-- Modelled from the spec: the Cache registry owning the full population of
Container entities, reduced to the container collection that
`GetContainers`/`GetInitContainers` iterate over. -/
structure Cache where
  Containers : List Container := []
deriving DecidableEq, Repr

/-- `PodState` is an integer-backed enum mirrored from the runtime. -/
abbrev PodState := Int

/-- `PodStateReady`. -/
def PodStateReady : PodState := 0

/-- The pod entity (struct `pod`): identity, descriptive data, runtime state,
derived resource model and memoized QoS class, plus the cache back-reference. -/
structure Pod where
  Id : String
  Uid : String := ""
  Name : String := ""
  Namespace : String := ""
  State : PodState := PodStateReady
  Labels : List (String × String) := []
  Annotations : List (String × String) := []
  CgroupParent : String := ""
  Resources : Option PodResourceRequirements := none
  QOSClass : String := ""
  cache : Cache := {}
deriving DecidableEq, Repr

/-! ## QoS classification (`GetPodQOS`, code lifted over from Kubernetes) -/

/-- `isSupportedQoSComputeResource`: only cpu and memory participate. -/
def isSupportedQoSComputeResource (name : String) : Bool :=
  name == "cpu" || name == "memory"

/-- The body of `delta := quantity.Copy(); if !exists { m[name] = delta } else
{ delta.Add(m[name]); m[name] = delta }`: add `q` into the aggregate list. -/
def rlAdd (rl : List (String × Int)) (name : String) (q : Int) :
    List (String × Int) :=
  match lookupA rl name with
  | none => storeA rl name q
  | some old => storeA rl name (q + old)

/-- The `// process requests` loop of one container: fold every supported,
strictly positive request quantity into the aggregate. -/
def processRequests (acc : List (String × Int))
    (reqs : List (String × Int)) : List (String × Int) :=
  reqs.foldl
    (fun acc nq =>
      if isSupportedQoSComputeResource nq.1 ∧ 0 < nq.2 then
        rlAdd acc nq.1 nq.2
      else acc)
    acc

/-- The `// process limits` loop of one container: fold every supported,
strictly positive limit quantity into the aggregate while recording its
resource name in `qosLimitsFound`. -/
def processLimits (acc : List (String × Int)) (found : List String)
    (lims : List (String × Int)) : List (String × Int) × List String :=
  lims.foldl
    (fun st nq =>
      if isSupportedQoSComputeResource nq.1 ∧ 0 < nq.2 then
        (rlAdd st.1 nq.1 nq.2, if nq.1 ∈ st.2 then st.2 else nq.1 :: st.2)
      else st)
    (acc, found)

/-- `qosLimitsFound.HasAll(memory, cpu)`. -/
def hasAllMemCpu (found : List String) : Bool :=
  decide ("memory" ∈ found) && decide ("cpu" ∈ found)

/-- The accumulator of the container loop of `GetPodQOS`: the aggregated
requests, aggregated limits and the pod-wide `isGuaranteed` flag. -/
structure AggState where
  requests : List (String × Int)
  limits : List (String × Int)
  isGuaranteed : Bool
deriving DecidableEq, Repr

/-- One iteration of `for _, resources := range podResources.Containers`. -/
def aggStep (st : AggState) (c : String × ContainerResources) : AggState :=
  let requests := processRequests st.requests c.2.Requests
  let ls := processLimits st.limits [] c.2.Limits
  { requests := requests
    limits := ls.1
    isGuaranteed := st.isGuaranteed && hasAllMemCpu ls.2 }

/-- The whole container loop, from the initial empty aggregates and
`isGuaranteed = true`. -/
def aggregate (containers : List (String × ContainerResources)) : AggState :=
  containers.foldl aggStep ⟨[], [], true⟩

/-- The `// Check is requests match limits for all resources.` loop: every
aggregated request has an exactly equal aggregated limit. -/
def requestsMatchLimits (requests limits : List (String × Int)) : Bool :=
  requests.all fun nq =>
    match lookupA limits nq.1 with
    | some lim => lim == nq.2
    | none => false

/-- The classification part of `GetPodQOS`, a pure function of the
resource-requirement model. -/
def computeQOS (r : PodResourceRequirements) : String :=
  let st := aggregate r.Containers
  if st.requests = [] ∧ st.limits = [] then "BestEffort"
  else if (st.isGuaranteed && requestsMatchLimits st.requests st.limits)
      && st.requests.length == st.limits.length then "Guaranteed"
  else "Burstable"

/-- `GetPodQOS`: return the memoized class if set; otherwise dereference
`p.Resources` (`none` embeds the nil-pointer dereference panic), classify,
memoize and return. -/
def GetPodQOS (p : Pod) : Option (String × Pod) :=
  if p.QOSClass ≠ "" then some (p.QOSClass, p)
  else
    match p.Resources with
    | none => none
    | some r =>
      let q := computeQOS r
      some (q, { p with QOSClass := q })

/-! ## Built-in annotation decoders

Modelled from the spec: the built-in scalar decoders of
`GetAnnotationObject` (`strconv.ParseBool` / `ParseInt` / `ParseUint` with
base 0) are standard-library collaborators not under the visible source; the
spec describes them as "numeric parse with base-agnostic parsing — accepts
0x/0 prefixes". They are embedded here as sign handling, base-prefix
detection (`0x`/`0X` hex, `0o`/`0O` octal, `0b`/`0B` binary, bare leading
zero octal, else decimal), digit parsing and a representable-range check. -/

/-- Value of a single digit character (`0-9`, `a-f`, `A-F`). -/
def charToDigit (c : Char) : Option Nat :=
  if '0' ≤ c ∧ c ≤ '9' then some (c.toNat - '0'.toNat)
  else if 'a' ≤ c ∧ c ≤ 'f' then some (c.toNat - 'a'.toNat + 10)
  else if 'A' ≤ c ∧ c ≤ 'F' then some (c.toNat - 'A'.toNat + 10)
  else none

/-- Character of a single digit value below 16 (lower-case letters). -/
def digitChar (d : Nat) : Char :=
  if d < 10 then Char.ofNat ('0'.toNat + d) else Char.ofNat ('a'.toNat + (d - 10))

/-- Accumulate the digit characters `cs` in base `b` onto `acc`;
fails on a non-digit or a digit not below `b`. -/
def parseDigitsAux (b : Nat) (acc : Nat) : List Char → Option Nat
  | [] => some acc
  | c :: rest =>
    match charToDigit c with
    | some d => if d < b then parseDigitsAux b (acc * b + d) rest else none
    | none => none

/-- Parse a non-empty digit string in base `b`. -/
def parseDigits (b : Nat) (cs : List Char) : Option Nat :=
  match cs with
  | [] => none
  | _ => parseDigitsAux b 0 cs

/-- Base-prefix detection of base-agnostic (base 0) parsing. -/
def detectBase (cs : List Char) : Nat × List Char :=
  match cs with
  | c₀ :: c₁ :: rest =>
    if c₀ = '0' then
      if c₁ = 'x' ∨ c₁ = 'X' then (16, rest)
      else if c₁ = 'o' ∨ c₁ = 'O' then (8, rest)
      else if c₁ = 'b' ∨ c₁ = 'B' then (2, rest)
      else (8, c₁ :: rest)
    else (10, cs)
  | other => (10, other)

/-- Strip an optional leading sign; `true` means negative. -/
def splitSign (cs : List Char) : Bool × List Char :=
  match cs with
  | c :: rest =>
    if c = '-' then (true, rest)
    else if c = '+' then (false, rest)
    else (false, cs)
  | [] => (false, [])

/-- `strconv.ParseUint(s, 0, bits)`: no sign permitted, base-agnostic,
result must be representable in `bits` bits. -/
def goParseUint (s : String) (bits : Nat) : Option Nat :=
  let bd := detectBase s.data
  match parseDigits bd.1 bd.2 with
  | none => none
  | some n => if n < 2 ^ bits then some n else none

/-- `strconv.ParseInt(s, 0, bits)`: optional sign, base-agnostic magnitude,
result must be representable in `bits`-bit two's complement. -/
def goParseInt (s : String) (bits : Nat) : Option Int :=
  let sg := splitSign s.data
  let bd := detectBase sg.2
  match parseDigits bd.1 bd.2 with
  | none => none
  | some n =>
    if sg.1 then if n ≤ 2 ^ (bits - 1) then some (-(n : Int)) else none
    else if n < 2 ^ (bits - 1) then some (n : Int) else none

/-- `strconv.ParseBool`: the accepted spellings. -/
def goParseBool (s : String) : Option Bool :=
  if s = "1" ∨ s = "t" ∨ s = "T" ∨ s = "TRUE" ∨ s = "true" ∨ s = "True" then
    some true
  else if s = "0" ∨ s = "f" ∨ s = "F" ∨ s = "FALSE" ∨ s = "false" ∨ s = "False" then
    some false
  else none

/-! ### String encodings used for the round-trip property -/

/-- Little-endian base-`b` digits with explicit fuel (structural recursion,
so that the kernel can evaluate it). -/
def toDigitsRevF : Nat → Nat → Nat → List Nat
  | 0, _, _ => []
  | fuel + 1, b, n =>
    if n = 0 ∨ b < 2 then [] else (n % b) :: toDigitsRevF fuel b (n / b)

/-- Little-endian base-`b` digits of `n` (empty for `0`); `n` itself is
always enough fuel. -/
def toDigitsRev (b : Nat) (n : Nat) : List Nat :=
  toDigitsRevF n b n

/-- Value of little-endian base-`b` digits. -/
def ofDigitsRev (b : Nat) : List Nat → Nat
  | [] => 0
  | d :: rest => d + b * ofDigitsRev b rest

/-- Canonical base-`b` rendering of `n` (`"0"` for zero, no leading zeros). -/
def natToBaseString (b : Nat) (n : Nat) : String :=
  if n = 0 then "0" else String.mk ((toDigitsRev b n).reverse.map digitChar)

/-- Decimal encoding of an integer (`strconv.FormatInt(v, 10)`). -/
def intToDecString (i : Int) : String :=
  if i < 0 then "-" ++ natToBaseString 10 i.natAbs else natToBaseString 10 i.toNat

/-- Hexadecimal-prefixed encoding of a natural number. -/
def natToHexString (n : Nat) : String :=
  "0x" ++ natToBaseString 16 n

/-- Hexadecimal-prefixed encoding of an integer (sign before the prefix). -/
def intToHexString (i : Int) : String :=
  if i < 0 then "-" ++ natToHexString i.natAbs else natToHexString i.toNat

/-! ## Annotation lookup and generic decode -/

/-- `KeyResourceAnnotation`, the annotation key the webhook uses. -/
def KeyResourceAnnotation : String := "intel.com/resources"

/-- `kubetypes.KubernetesPodUIDLabel`. -/
def KubernetesPodUIDLabel : String := "io.kubernetes.pod.uid"

/-- `GetLabel`: single-key label lookup with presence flag. -/
def GetLabel (p : Pod) (key : String) : Option String :=
  lookupA p.Labels key

/-- `GetAnnotation`: single-key annotation lookup with presence flag. -/
def GetAnnotation (p : Pod) (key : String) : Option String :=
  lookupA p.Annotations key

/-- The closed set of declared target types of the `switch objPtr.(type)`
dispatch in `GetAnnotationObject`. -/
inductive AnnTag where
  | str
  | bool
  | int
  | uint
  | int64
  | uint64
  | prr
deriving DecidableEq, Repr

/-- A decoded annotation value, one variant per target type. -/
inductive AnnObj where
  | str (s : String)
  | bool (b : Bool)
  | int (i : Int)
  | uint (n : Nat)
  | int64 (i : Int)
  | uint64 (n : Nat)
  | prr (r : PodResourceRequirements)
deriving DecidableEq, Repr

/-- The type-specific default decoder of `GetAnnotationObject`: string copy,
`ParseBool`, `ParseInt`/`ParseUint` (bit size 0 is the 64-bit platform int),
and the structured JSON fallback `jsonDec` for any other target type. -/
def defaultDecode (jsonDec : String → Except String PodResourceRequirements)
    (tag : AnnTag) (value : String) : Except String AnnObj :=
  match tag with
  | .str => .ok (.str value)
  | .bool =>
    match goParseBool value with
    | some b => .ok (.bool b)
    | none => .error "ParseBool"
  | .int =>
    match goParseInt value 64 with
    | some i => .ok (.int i)
    | none => .error "ParseInt"
  | .uint =>
    match goParseUint value 64 with
    | some n => .ok (.uint n)
    | none => .error "ParseUint"
  | .int64 =>
    match goParseInt value 64 with
    | some i => .ok (.int64 i)
    | none => .error "ParseInt"
  | .uint64 =>
    match goParseUint value 64 with
    | some n => .ok (.uint64 n)
    | none => .error "ParseUint"
  | .prr => (jsonDec value).map .prr

/-- Result of `GetAnnotationObject`: the found flag, the decoded value on
success, and the error on decode failure (the found flag is `true` even
then, as in the source). -/
structure AnnDecodeResult where
  found : Bool
  value : Option AnnObj
  err : Option String
deriving DecidableEq, Repr

/-- `GetAnnotationObject`: look the key up (absent means
`(false, no error)`); delegate unconditionally to a custom decoder when one
is given; otherwise apply the built-in decoder selected by the target
type. -/
def GetAnnotationObject (jsonDec : String → Except String PodResourceRequirements)
    (p : Pod) (key : String) (tag : AnnTag)
    (decode : Option (String → Except String AnnObj)) : AnnDecodeResult :=
  match GetAnnotation p key with
  | none => ⟨false, none, none⟩
  | some value =>
    match decode with
    | some dec =>
      match dec value with
      | .ok v => ⟨true, some v, none⟩
      | .error e => ⟨true, none, some e⟩
    | none =>
      match defaultDecode jsonDec tag value with
      | .ok v => ⟨true, some v, none⟩
      | .error e => ⟨true, none, some e⟩

/-- `parseResourceAnnotations`: always allocate a fresh zero model, then try
to decode it from the resource annotation; absence or failure leaves the
fresh model. -/
def parseResourceAnnotations
    (jsonDec : String → Except String PodResourceRequirements) (p : Pod) : Pod :=
  let res :=
    match GetAnnotationObject jsonDec p KeyResourceAnnotation .prr none with
    | ⟨_, some (.prr r), _⟩ => r
    | _ => zeroPRR
  { p with Resources := some res }

/-- `extractLabels`: populate `Uid` from the well-known label; a missing
label leaves it empty (warning only). -/
def extractLabels (p : Pod) : Pod :=
  { p with Uid := (GetLabel p KubernetesPodUIDLabel).getD "" }

/-! ## Construction from protocol messages -/

/-- `PodSandboxMetadata` of the CRI protocol (fields the cache reads). -/
structure PodSandboxMetadata where
  Name : String := ""
  Namespace : String := ""
  Uid : String := ""
deriving DecidableEq, Repr

/-- `LinuxPodSandboxConfig` (field the cache reads). -/
structure LinuxPodSandboxConfig where
  CgroupParent : String := ""
deriving DecidableEq, Repr

/-- `PodSandboxConfig` of a run request. -/
structure PodSandboxConfig where
  Metadata : Option PodSandboxMetadata := none
  Labels : List (String × String) := []
  Annotations : List (String × String) := []
  Linux : Option LinuxPodSandboxConfig := none
deriving DecidableEq, Repr

/-- `RunPodSandboxRequest`. -/
structure RunPodSandboxRequest where
  Config : Option PodSandboxConfig := none
deriving DecidableEq, Repr

/-- A `PodSandbox` entry of a list response. -/
structure PodSandbox where
  Metadata : Option PodSandboxMetadata := none
  State : Int := 0
  Labels : List (String × String) := []
  Annotations : List (String × String) := []
deriving DecidableEq, Repr

/-- `fromRunRequest`: fail with a cache error when config or its metadata is
absent; otherwise copy identity and maps, force `State` to Ready, take the
cgroup parent through the nil-safe getters, then parse annotations and
extract labels. -/
def fromRunRequest (jsonDec : String → Except String PodResourceRequirements)
    (p : Pod) (req : RunPodSandboxRequest) : Except String Pod :=
  match req.Config with
  | none => .error ("pod " ++ p.Id ++ " has no config")
  | some cfg =>
    match cfg.Metadata with
    | none => .error ("pod " ++ p.Id ++ " has no request metadata")
    | some meta =>
      let p := { p with
        Name := meta.Name
        Namespace := meta.Namespace
        State := PodStateReady
        Labels := cfg.Labels
        Annotations := cfg.Annotations
        CgroupParent := (cfg.Linux.map LinuxPodSandboxConfig.CgroupParent).getD "" }
      .ok (extractLabels (parseResourceAnnotations jsonDec p))

/-- `fromListResponse`: fail with a cache error when metadata is absent;
otherwise copy identity, maps and the reply's own state verbatim, then parse
annotations and extract labels. -/
def fromListResponse (jsonDec : String → Except String PodResourceRequirements)
    (p : Pod) (sb : PodSandbox) : Except String Pod :=
  match sb.Metadata with
  | none => .error ("pod " ++ p.Id ++ " has no reply metadata")
  | some meta =>
    let p := { p with
      Name := meta.Name
      Namespace := meta.Namespace
      State := sb.State
      Labels := sb.Labels
      Annotations := sb.Annotations }
    .ok (extractLabels (parseResourceAnnotations jsonDec p))

/-! ## Container queries -/

/-- `GetInitContainers`: nothing when `Resources` is nil; otherwise every
container of the cache whose id is in the `InitContainers` set. -/
def GetInitContainers (p : Pod) : List Container :=
  match p.Resources with
  | none => []
  | some res =>
    p.cache.Containers.filter fun c => (lookupA res.InitContainers c.Id).isSome

/-- `GetContainers`: every container of the cache, filtered by membership in
`Resources.Containers` only when `Resources` is not nil. -/
def GetContainers (p : Pod) : List Container :=
  p.cache.Containers.filter fun c =>
    match p.Resources with
    | none => true
    | some res => (lookupA res.Containers c.Id).isSome

/-- `GetPodResourceRequirements`: the model by value, or the zero model when
`Resources` is nil. -/
def GetPodResourceRequirements (p : Pod) : PodResourceRequirements :=
  p.Resources.getD zeroPRR

/-! ## Helper definitions for statements and proofs -/

/-- The `qosLimitsFound` part of the limits loop in isolation (it does not
depend on the limits aggregate). -/
def limitsFound (found : List String) (lims : List (String × Int)) : List String :=
  lims.foldl
    (fun f nq =>
      if isSupportedQoSComputeResource nq.1 ∧ 0 < nq.2 then
        if nq.1 ∈ f then f else nq.1 :: f
      else f)
    found

/-- Keep only the entries that participate in QoS aggregation: supported
resource name and strictly positive quantity. -/
def qosFilter (l : List (String × Int)) : List (String × Int) :=
  l.filter fun nq => decide (isSupportedQoSComputeResource nq.1 ∧ 0 < nq.2)

/-- Restrict every container's requests/limits to the participating
entries. -/
def filterModel (r : PodResourceRequirements) : PodResourceRequirements :=
  { Containers :=
      r.Containers.map fun c => (c.1, ⟨qosFilter c.2.Requests, qosFilter c.2.Limits⟩)
    InitContainers := r.InitContainers }

/-- Per-container Guaranteed qualification as the claim words it: a strictly
positive limit for both cpu and memory. -/
abbrev containerGuaranteedOK (lims : List (String × Int)) : Prop :=
  (∃ q, ("cpu", q) ∈ lims ∧ 0 < q) ∧ (∃ q, ("memory", q) ∈ lims ∧ 0 < q)

/-- The three Guaranteed conditions of the claim: every container qualifies,
every aggregated request is exactly matched by an aggregated limit, and the
two aggregates have the same number of distinct resource kinds. -/
abbrev guaranteedConditions (r : PodResourceRequirements) : Prop :=
  (∀ c ∈ r.Containers, containerGuaranteedOK c.2.Limits) ∧
  (∀ nq ∈ (aggregate r.Containers).requests,
    lookupA (aggregate r.Containers).limits nq.1 = some nq.2) ∧
  (aggregate r.Containers).requests.length = (aggregate r.Containers).limits.length

/-- Every declared request and limit quantity of the model is exactly 0. -/
abbrev allZeroQuantities (r : PodResourceRequirements) : Prop :=
  ∀ c ∈ r.Containers,
    (∀ nq ∈ c.2.Requests, nq.2 = 0) ∧ (∀ nq ∈ c.2.Limits, nq.2 = 0)

/-- Success flag of a construction result (`err == nil`). -/
def isOkE {ε α : Type} : Except ε α → Bool
  | .ok _ => true
  | .error _ => false

/-- A pod holding exactly one annotation. -/
def mkAnnPod (key enc : String) : Pod :=
  { Id := "p", Annotations := [(key, enc)] }

/-- The round-trip property of `GetAnnotationObject` with no custom decoder:
for each built-in target type, decoding the stored string encoding of a
value yields found, no error, and the value itself (decimal encodings for
all numeric types, hexadecimal-prefixed encodings as well). -/
def c7Prop (jsonDec : String → Except String PodResourceRequirements)
    (key s : String) (b : Bool) (i : Int) (n : Nat) : Prop :=
  GetAnnotationObject jsonDec (mkAnnPod key s) key .str none
    = ⟨true, some (.str s), none⟩ ∧
  GetAnnotationObject jsonDec (mkAnnPod key (cond b "true" "false")) key .bool none
    = ⟨true, some (.bool b), none⟩ ∧
  GetAnnotationObject jsonDec (mkAnnPod key (intToDecString i)) key .int none
    = ⟨true, some (.int i), none⟩ ∧
  GetAnnotationObject jsonDec (mkAnnPod key (intToDecString i)) key .int64 none
    = ⟨true, some (.int64 i), none⟩ ∧
  GetAnnotationObject jsonDec (mkAnnPod key (intToHexString i)) key .int none
    = ⟨true, some (.int i), none⟩ ∧
  GetAnnotationObject jsonDec (mkAnnPod key (intToHexString i)) key .int64 none
    = ⟨true, some (.int64 i), none⟩ ∧
  GetAnnotationObject jsonDec (mkAnnPod key (natToBaseString 10 n)) key .uint none
    = ⟨true, some (.uint n), none⟩ ∧
  GetAnnotationObject jsonDec (mkAnnPod key (natToBaseString 10 n)) key .uint64 none
    = ⟨true, some (.uint64 n), none⟩ ∧
  GetAnnotationObject jsonDec (mkAnnPod key (natToHexString n)) key .uint none
    = ⟨true, some (.uint n), none⟩ ∧
  GetAnnotationObject jsonDec (mkAnnPod key (natToHexString n)) key .uint64 none
    = ⟨true, some (.uint64 n), none⟩

/-! ### Concrete example values used by witnesses and counterexamples -/

/-- A JSON decoder that always fails (used to instantiate the external
decoder parameter in closed statements). -/
def decFail : String → Except String PodResourceRequirements :=
  fun _ => Except.error "decode error"

/-- One container with equal, complete cpu/memory requests and limits. -/
def rGuaranteed : PodResourceRequirements :=
  ⟨[("c1", ⟨[("cpu", 100), ("memory", 64)], [("cpu", 100), ("memory", 64)]⟩)], []⟩

/-- A pod carrying `rGuaranteed`, QoS not yet computed. -/
def podGuaranteed : Pod := { Id := "p1", Resources := some rGuaranteed }

/-- A bare pod: nil `Resources`, empty `QOSClass`. -/
def pod0 : Pod := { Id := "p0" }

/-- A pod with nil `Resources` whose cache holds containers of two different
pods. -/
def podC3 : Pod :=
  { Id := "p1", cache := ⟨[⟨"c1", "p1"⟩, ⟨"c2", "p2"⟩]⟩ }

/-- A model whose every declared quantity is exactly 0. -/
def rVanish : PodResourceRequirements :=
  ⟨[("c1", ⟨[("cpu", 0), ("memory", 0)], [("cpu", 0)]⟩)], []⟩

/-- A pod with the empty resource model, QoS not yet computed. -/
def podBestEffort : Pod := { Id := "p2", Resources := some zeroPRR }

/-- A pod whose resource annotation does not decode. -/
def podAnnBad : Pod :=
  { Id := "p3", Annotations := [( KeyResourceAnnotation, "bad")] }

/-- A well-formed run request without the resource annotation. -/
def reqOk : RunPodSandboxRequest :=
  { Config := some { Metadata := some { Name := "n", Namespace := "ns" } } }

/-- A well-formed list-response entry with a non-Ready state. -/
def sb0 : PodSandbox :=
  { Metadata := some { Name := "n", Namespace := "ns" }, State := 1 }

/-- The pod constructed from `reqOk`. -/
def runPod0 : Pod := ((fromRunRequest decFail pod0 reqOk).toOption).getD pod0

/-- The pod constructed from `sb0`. -/
def listPod0 : Pod := ((fromListResponse decFail pod0 sb0).toOption).getD pod0

/-! ## Helper lemmas -/

/-- The classifier never returns the unset (empty) class. -/
theorem computeQOS_ne_empty (r : PodResourceRequirements) : computeQOS r ≠ "" := by
  unfold computeQOS
  dsimp only
  split
  · decide
  · split <;> decide

/-- A pod with a memoized class completes `GetPodQOS`. -/
theorem getPodQOS_isSome_of_memo (p : Pod) (h : p.QOSClass ≠ "") :
    (GetPodQOS p).isSome = true := by
  simp [GetPodQOS, h]

/-- A pod with a non-nil resource model completes `GetPodQOS`. -/
theorem getPodQOS_isSome_of_resources (p : Pod) (r : PodResourceRequirements)
    (h : p.Resources = some r) : (GetPodQOS p).isSome = true := by
  unfold GetPodQOS
  by_cases hq : p.QOSClass ≠ ""
  · simp [hq]
  · simp [hq, h]

/-- An absent resource annotation leaves the freshly allocated zero model. -/
theorem parseRA_absent_zero (jsonDec : String → Except String PodResourceRequirements)
    (p : Pod) (h : GetAnnotation p KeyResourceAnnotation = none) :
    (parseResourceAnnotations jsonDec p).Resources = some zeroPRR := by
  simp [parseResourceAnnotations, GetAnnotationObject, h]

/-- A failing decode of the resource annotation leaves the freshly allocated
zero model. -/
theorem parseRA_error_zero (jsonDec : String → Except String PodResourceRequirements)
    (p : Pod) (v e : String) (hv : GetAnnotation p KeyResourceAnnotation = some v)
    (he : jsonDec v = .error e) :
    (parseResourceAnnotations jsonDec p).Resources = some zeroPRR := by
  simp [parseResourceAnnotations, GetAnnotationObject, hv, defaultDecode, he, Except.map]

/-- A pod whose model is the zero model filters every container out. -/
theorem getContainers_zero (p : Pod) (h : p.Resources = some zeroPRR) :
    GetContainers p = [] := by
  simp [GetContainers, h, zeroPRR, lookupA]

/-! ## Claims -/

/-- C4: pod construction returns a structural cache error if and only if a
required protocol field is absent: `fromRunRequest` fails exactly when the
request's config or its metadata is nil, `fromListResponse` exactly when the
entry's metadata is nil; otherwise construction succeeds. -/
theorem c4_construction_error_iff
    (jsonDec : String → Except String PodResourceRequirements)
    (p : Pod) (req : RunPodSandboxRequest) (sb : PodSandbox) :
    (isOkE (fromRunRequest jsonDec p req) = true ↔
      ∃ cfg meta, req.Config = some cfg ∧ cfg.Metadata = some meta) ∧
    (isOkE (fromListResponse jsonDec p sb) = true ↔
      ∃ meta, sb.Metadata = some meta) := by
  constructor
  · cases hc : req.Config with
    | none => simp [fromRunRequest, hc, isOkE]
    | some cfg =>
      cases hm : cfg.Metadata with
      | none => simp [fromRunRequest, hc, hm, isOkE]
      | some meta => simp [fromRunRequest, hc, hm, isOkE]
  · cases hm : sb.Metadata <;> simp [fromListResponse, hm, isOkE]

/-- C6: `fromRunRequest` forces the constructed pod's state to Ready (the
run request carries no state at all), while `fromListResponse` copies the
reply's own state verbatim. -/
theorem c6_construction_state
    (jsonDec : String → Except String PodResourceRequirements)
    (p p₁ p₂ : Pod) (req : RunPodSandboxRequest) (sb : PodSandbox) :
    (fromRunRequest jsonDec p req = .ok p₁ → p₁.State = PodStateReady) ∧
    (fromListResponse jsonDec p sb = .ok p₂ → p₂.State = sb.State) := by
  constructor
  · intro h
    cases hc : req.Config with
    | none => simp [fromRunRequest, hc] at h
    | some cfg =>
      cases hm : cfg.Metadata with
      | none => simp [fromRunRequest, hc, hm] at h
      | some meta =>
        simp only [fromRunRequest, hc, hm, Except.ok.injEq] at h
        subst h
        rfl
  · intro h
    cases hm : sb.Metadata with
    | none => simp [fromListResponse, hm] at h
    | some meta =>
      simp only [fromListResponse, hm, Except.ok.injEq] at h
      subst h
      rfl

/-- C5: `GetPodQOS` is memoizing and idempotent: a completed call yields a
pod whose class is set to the returned non-empty value, and a second call
returns the identical value through the memo branch with no recomputation
and no further state change. -/
theorem c5_getPodQOS_idempotent (p : Pod) (q : String) (p' : Pod)
    (h : GetPodQOS p = some (q, p')) :
    p'.QOSClass = q ∧ q ≠ "" ∧ GetPodQOS p' = some (q, p') := by
  unfold GetPodQOS at h ⊢
  by_cases hq : p.QOSClass ≠ ""
  · rw [if_pos hq] at h
    obtain ⟨h1, h2⟩ : p.QOSClass = q ∧ p = p' := by simpa using h
    subst h2
    subst h1
    refine ⟨rfl, hq, ?_⟩
    rw [if_pos hq]
  · rw [if_neg hq] at h
    cases hr : p.Resources with
    | none => rw [hr] at h; cases h
    | some r =>
      rw [hr] at h
      obtain ⟨h1, h2⟩ :
          computeQOS r = q ∧
            ({ p with Resources := some r, QOSClass := computeQOS r } : Pod) = p' := by
        simpa using h
      subst h2
      subst h1
      refine ⟨rfl, computeQOS_ne_empty r, ?_⟩
      have hc :
          ({ p with Resources := some r, QOSClass := computeQOS r } : Pod).QOSClass ≠ "" :=
        computeQOS_ne_empty r
      rw [if_pos hc]

/-- C5 witness: computing the class of a concrete pod and calling again. -/
theorem c5_witness :
    GetPodQOS podBestEffort
      = some ("BestEffort", { podBestEffort with QOSClass := "BestEffort" }) ∧
    (({ podBestEffort with QOSClass := "BestEffort" } : Pod).QOSClass = "BestEffort" ∧
      ("BestEffort" : String) ≠ "" ∧
      GetPodQOS { podBestEffort with QOSClass := "BestEffort" }
        = some ("BestEffort", { podBestEffort with QOSClass := "BestEffort" })) :=
  ⟨by decide, c5_getPodQOS_idempotent podBestEffort "BestEffort" _ (by decide)⟩

/-- C9 counterexample: the claim asserts `GetPodQOS` completes even with nil
`Resources`; on the bare pod (`Resources` nil, class unset) the source
dereferences the nil `p.Resources` pointer, embedded here as the `none`
result. -/
theorem c9_counterexample :
    pod0.QOSClass = "" ∧ pod0.Resources = none ∧ GetPodQOS pod0 = none :=
  ⟨rfl, rfl, rfl⟩

/-- C9 (amended): `GetPodQOS` completes and returns a class for every pod
whose class is already memoized or whose `Resources` is non-nil — in
particular for every constructed pod; only the nil-`Resources`, unset-class
state dereferences nil. -/
theorem c9_no_panic_amended (p : Pod)
    (h : p.QOSClass ≠ "" ∨ p.Resources ≠ none) :
    (GetPodQOS p).isSome = true := by
  rcases h with h | h
  · exact getPodQOS_isSome_of_memo p h
  · cases hr : p.Resources with
    | none => exact absurd hr h
    | some r => exact getPodQOS_isSome_of_resources p r hr

/-- C9 witness: a concrete pod with a non-nil model completes. -/
theorem c9_witness :
    (podGuaranteed.QOSClass ≠ "" ∨ podGuaranteed.Resources ≠ none) ∧
    (GetPodQOS podGuaranteed).isSome = true :=
  ⟨Or.inr (by decide), c9_no_panic_amended podGuaranteed (Or.inr (by decide))⟩

/-- C3 counterexample: the claim says a nil-`Resources` pod never gets
containers of a different pod from `GetContainers`; but the loop ranges over
the whole cache population with no owning-pod check, so a cache holding a
container of another pod is returned too. -/
theorem c3_counterexample :
    podC3.Resources = none ∧
    ∃ c ∈ GetContainers podC3, c.PodId ≠ podC3.Id := by
  refine ⟨rfl, ?_⟩
  decide

/-- C3 (amended): for a pod with nil `Resources`, `GetInitContainers`
returns no containers and `GetContainers` returns every container of the
cache's whole container population, unfiltered — including containers owned
by other pods. -/
theorem c3_nil_resources_containers (p : Pod) (h : p.Resources = none) :
    GetInitContainers p = [] ∧ GetContainers p = p.cache.Containers := by
  refine ⟨?_, ?_⟩
  · simp [GetInitContainers, h]
  · simp [GetContainers, h]

/-- C3 witness: the two-pod cache instance. -/
theorem c3_witness :
    podC3.Resources = none ∧
    (GetInitContainers podC3 = [] ∧ GetContainers podC3 = podC3.cache.Containers) :=
  ⟨rfl, c3_nil_resources_containers podC3 rfl⟩

/-- C8: an absent resource annotation, or one whose decode fails, leaves the
resource model at its freshly allocated zero value — never partially
populated (the external JSON decoder is modelled as atomic: it either
produces a whole model or changes nothing). -/
theorem c8_decode_failure_zero_model
    (jsonDec : String → Except String PodResourceRequirements) (p : Pod) :
    ( GetAnnotation p KeyResourceAnnotation = none →
      (parseResourceAnnotations jsonDec p).Resources = some zeroPRR) ∧
    (∀ v e, GetAnnotation p KeyResourceAnnotation = some v →
      jsonDec v = .error e →
      (parseResourceAnnotations jsonDec p).Resources = some zeroPRR) :=
  ⟨fun h => parseRA_absent_zero jsonDec p h,
   fun v e hv he => parseRA_error_zero jsonDec p v e hv he⟩

/-- C8 witness: a pod without the annotation and a pod whose annotation the
decoder rejects both end with the zero model. -/
theorem c8_witness :
    ( GetAnnotation pod0 KeyResourceAnnotation = none ∧
      (parseResourceAnnotations decFail pod0).Resources = some zeroPRR) ∧
    ( GetAnnotation podAnnBad KeyResourceAnnotation = some "bad" ∧
      decFail "bad" = Except.error "decode error" ∧
      (parseResourceAnnotations decFail podAnnBad).Resources = some zeroPRR) :=
  ⟨⟨by decide, (c8_decode_failure_zero_model decFail pod0).1 (by decide)⟩,
   ⟨by decide, rfl,
    (c8_decode_failure_zero_model decFail podAnnBad).2 "bad" "decode error"
      (by decide) rfl⟩⟩

/-- C10: every successfully constructed pod has a non-nil resource model
(annotation parsing always allocates), hence `GetPodQOS` completes on it;
and a constructed pod without the resource annotation carries the zero
model, so `GetContainers` filters against an empty container-id set and
returns nothing. -/
theorem c10_constructed_resources_nonnil
    (jsonDec : String → Except String PodResourceRequirements)
    (p p₁ p₂ : Pod) (req : RunPodSandboxRequest) (sb : PodSandbox) :
    (fromRunRequest jsonDec p req = .ok p₁ →
      p₁.Resources.isSome = true ∧ (GetPodQOS p₁).isSome = true ∧
      ( GetAnnotation p₁ KeyResourceAnnotation = none →
        p₁.Resources = some zeroPRR ∧ GetContainers p₁ = [])) ∧
    (fromListResponse jsonDec p sb = .ok p₂ →
      p₂.Resources.isSome = true ∧ (GetPodQOS p₂).isSome = true ∧
      ( GetAnnotation p₂ KeyResourceAnnotation = none →
        p₂.Resources = some zeroPRR ∧ GetContainers p₂ = [])) := by
  constructor
  · intro h
    cases hc : req.Config with
    | none => simp [fromRunRequest, hc] at h
    | some cfg =>
      cases hm : cfg.Metadata with
      | none => simp [fromRunRequest, hc, hm] at h
      | some meta =>
        simp only [fromRunRequest, hc, hm, Except.ok.injEq] at h
        subst h
        refine ⟨rfl, getPodQOS_isSome_of_resources _ _ rfl, ?_⟩
        intro hann
        have hz := parseRA_absent_zero jsonDec _ hann
        exact ⟨hz, getContainers_zero _ hz⟩
  · intro h
    cases hm : sb.Metadata with
    | none => simp [fromListResponse, hm] at h
    | some meta =>
      simp only [fromListResponse, hm, Except.ok.injEq] at h
      subst h
      refine ⟨rfl, getPodQOS_isSome_of_resources _ _ rfl, ?_⟩
      intro hann
      have hz := parseRA_absent_zero jsonDec _ hann
      exact ⟨hz, getContainers_zero _ hz⟩

/-- C10 witness: the pods constructed from the concrete annotation-free
messages. -/
theorem c10_witness :
    fromRunRequest decFail pod0 reqOk = Except.ok runPod0 ∧
    fromListResponse decFail pod0 sb0 = Except.ok listPod0 ∧
    runPod0.Resources = some zeroPRR ∧ GetContainers runPod0 = [] ∧
    (GetPodQOS runPod0).isSome = true ∧ listPod0.Resources.isSome = true := by
  have h1 : fromRunRequest decFail pod0 reqOk = Except.ok runPod0 := rfl
  have h2 : fromListResponse decFail pod0 sb0 = Except.ok listPod0 := rfl
  have r1 :=
    (c10_constructed_resources_nonnil decFail pod0 runPod0 listPod0 reqOk sb0).1 h1
  have r2 :=
    (c10_constructed_resources_nonnil decFail pod0 runPod0 listPod0 reqOk sb0).2 h2
  have hann : GetAnnotation runPod0 KeyResourceAnnotation = none := by decide
  exact ⟨h1, h2, (r1.2.2 hann).1, (r1.2.2 hann).2, r1.2.1, r2.1⟩

/-- C6 witness: the concrete run request and list entry. -/
theorem c6_witness :
    fromRunRequest decFail pod0 reqOk = Except.ok runPod0 ∧
    fromListResponse decFail pod0 sb0 = Except.ok listPod0 ∧
    runPod0.State = PodStateReady ∧ listPod0.State = sb0.State :=
  ⟨rfl, rfl,
   (c6_construction_state decFail pod0 runPod0 listPod0 reqOk sb0).1 rfl,
   (c6_construction_state decFail pod0 runPod0 listPod0 reqOk sb0).2 rfl⟩

/-! ## Aggregation lemmas for the QoS claims -/

/-- Containers whose request and limit lists are empty leave the aggregates
unchanged. -/
theorem foldl_aggStep_nil_entries (l : List (String × ContainerResources)) :
    ∀ st : AggState, (∀ c ∈ l, c.2.Requests = [] ∧ c.2.Limits = []) →
      (l.foldl aggStep st).requests = st.requests ∧
      (l.foldl aggStep st).limits = st.limits := by
  induction l with
  | nil => intro st _; exact ⟨rfl, rfl⟩
  | cons c rest ih =>
    intro st hall
    have hc := hall c (List.mem_cons_self c rest)
    have hstep : (aggStep st c).requests = st.requests ∧
        (aggStep st c).limits = st.limits := by
      unfold aggStep
      rw [hc.1, hc.2]
      exact ⟨rfl, rfl⟩
    rw [List.foldl_cons]
    have := ih (aggStep st c) (fun c' hc' => hall c' (List.mem_cons_of_mem c hc'))
    exact ⟨this.1.trans hstep.1, this.2.trans hstep.2⟩

/-- Dropping non-participating entries does not change the request
aggregation. -/
theorem processRequests_qosFilter (l : List (String × Int)) :
    ∀ acc, processRequests acc (qosFilter l) = processRequests acc l := by
  induction l with
  | nil => intro acc; rfl
  | cons nq rest ih =>
    intro acc
    by_cases hc : isSupportedQoSComputeResource nq.1 ∧ 0 < nq.2
    · have hfil : qosFilter (nq :: rest) = nq :: qosFilter rest := by
        simp [qosFilter, List.filter_cons, hc]
      rw [hfil]
      simp only [processRequests, List.foldl_cons]
      rw [if_pos hc]
      exact ih (rlAdd acc nq.1 nq.2)
    · have hfil : qosFilter (nq :: rest) = qosFilter rest := by
        simp [qosFilter, List.filter_cons, hc]
      have hstep : processRequests acc (nq :: rest) = processRequests acc rest := by
        simp only [processRequests, List.foldl_cons]
        rw [if_neg hc]
      rw [hfil, hstep]
      exact ih acc

/-- Dropping non-participating entries does not change the limits
aggregation nor `qosLimitsFound`. -/
theorem processLimits_qosFilter (l : List (String × Int)) :
    ∀ acc found, processLimits acc found (qosFilter l) = processLimits acc found l := by
  induction l with
  | nil => intro acc found; rfl
  | cons nq rest ih =>
    intro acc found
    by_cases hc : isSupportedQoSComputeResource nq.1 ∧ 0 < nq.2
    · have hfil : qosFilter (nq :: rest) = nq :: qosFilter rest := by
        simp [qosFilter, List.filter_cons, hc]
      rw [hfil]
      simp only [processLimits, List.foldl_cons]
      rw [if_pos hc]
      exact ih (rlAdd acc nq.1 nq.2) (if nq.1 ∈ found then found else nq.1 :: found)
    · have hfil : qosFilter (nq :: rest) = qosFilter rest := by
        simp [qosFilter, List.filter_cons, hc]
      have hstep : processLimits acc found (nq :: rest) = processLimits acc found rest := by
        simp only [processLimits, List.foldl_cons]
        rw [if_neg hc]
      rw [hfil, hstep]
      exact ih acc found

/-- One aggregation step is invariant under the participation filter. -/
theorem aggStep_qosFilter (st : AggState) (c : String × ContainerResources) :
    aggStep st (c.1, ⟨qosFilter c.2.Requests, qosFilter c.2.Limits⟩) = aggStep st c := by
  unfold aggStep
  dsimp only
  rw [processRequests_qosFilter, processLimits_qosFilter]

/-- The whole aggregation is invariant under the participation filter. -/
theorem aggregate_filterModel (r : PodResourceRequirements) :
    aggregate (filterModel r).Containers = aggregate r.Containers := by
  show (r.Containers.map fun c =>
      (c.1, (⟨qosFilter c.2.Requests, qosFilter c.2.Limits⟩ : ContainerResources))).foldl
        aggStep ⟨[], [], true⟩ = r.Containers.foldl aggStep ⟨[], [], true⟩
  generalize (⟨[], [], true⟩ : AggState) = st
  induction r.Containers generalizing st with
  | nil => rfl
  | cons c rest ih =>
    rw [List.map_cons, List.foldl_cons, List.foldl_cons, aggStep_qosFilter]
    exact ih (aggStep st c)

/-- A list whose quantities are all zero filters to nothing. -/
theorem qosFilter_eq_nil_of_zero (l : List (String × Int))
    (h : ∀ nq ∈ l, nq.2 = 0) : qosFilter l = [] := by
  unfold qosFilter
  rw [List.filter_eq_nil_iff]
  intro nq hnq
  have := h nq hnq
  simp [this]

/-- C2: only strictly positive cpu/memory quantities are aggregated (the
aggregates are invariant under dropping zero, negative or non-cpu/memory
entries); the classifier returns BestEffort exactly when both aggregates are
empty; and a model whose every declared quantity is 0 classifies
BestEffort. -/
theorem c2_besteffort_aggregation (r : PodResourceRequirements) :
    (computeQOS r = "BestEffort" ↔
      (aggregate r.Containers).requests = [] ∧ (aggregate r.Containers).limits = []) ∧
    computeQOS (filterModel r) = computeQOS r ∧
    (allZeroQuantities r → computeQOS r = "BestEffort") := by
  have hfilter : computeQOS (filterModel r) = computeQOS r := by
    unfold computeQOS
    rw [aggregate_filterModel]
  have hiff : computeQOS r = "BestEffort" ↔
      (aggregate r.Containers).requests = [] ∧ (aggregate r.Containers).limits = [] := by
    by_cases h :
        (aggregate r.Containers).requests = [] ∧ (aggregate r.Containers).limits = []
    · simp [computeQOS, h]
    · have : computeQOS r = "Guaranteed" ∨ computeQOS r = "Burstable" := by
        unfold computeQOS
        dsimp only
        rw [if_neg h]
        split
        · exact Or.inl rfl
        · exact Or.inr rfl
      rcases this with h' | h' <;> rw [h'] <;> simp [h]
  refine ⟨hiff, hfilter, ?_⟩
  intro hz
  rw [← hfilter]
  have hnil : ∀ c ∈ (filterModel r).Containers, c.2.Requests = [] ∧ c.2.Limits = [] := by
    intro c hc
    unfold filterModel at hc
    simp only [List.mem_map] at hc
    obtain ⟨c₀, hc₀, rfl⟩ := hc
    exact ⟨qosFilter_eq_nil_of_zero _ (hz c₀ hc₀).1,
           qosFilter_eq_nil_of_zero _ (hz c₀ hc₀).2⟩
  have hagg := foldl_aggStep_nil_entries (filterModel r).Containers ⟨[], [], true⟩ hnil
  unfold computeQOS
  dsimp only
  rw [if_pos ⟨hagg.1, hagg.2⟩]

/-- C2 witness: a model whose every quantity is 0 is BestEffort, and its
aggregates are empty. -/
theorem c2_witness :
    allZeroQuantities rVanish ∧
    computeQOS rVanish = "BestEffort" ∧
    ((computeQOS rVanish = "BestEffort" ↔
        (aggregate rVanish.Containers).requests = [] ∧
        (aggregate rVanish.Containers).limits = []) ∧
      computeQOS (filterModel rVanish) = computeQOS rVanish ∧
      (allZeroQuantities rVanish → computeQOS rVanish = "BestEffort")) :=
  ⟨by decide, (c2_besteffort_aggregation rVanish).2.2 (by decide),
   c2_besteffort_aggregation rVanish⟩

/-! ## `isGuaranteed` characterization -/

/-- The `qosLimitsFound` component of the limits loop does not depend on the
limits aggregate. -/
theorem processLimits_snd (l : List (String × Int)) :
    ∀ acc found, (processLimits acc found l).2 = limitsFound found l := by
  induction l with
  | nil => intro acc found; rfl
  | cons nq rest ih =>
    intro acc found
    by_cases hc : isSupportedQoSComputeResource nq.1 ∧ 0 < nq.2
    · simp only [processLimits, limitsFound, List.foldl_cons]
      rw [if_pos hc, if_pos hc]
      exact ih (rlAdd acc nq.1 nq.2) (if nq.1 ∈ found then found else nq.1 :: found)
    · simp only [processLimits, limitsFound, List.foldl_cons]
      rw [if_neg hc, if_neg hc]
      exact ih acc found

/-- Membership in `qosLimitsFound`: a name was inserted exactly when some
entry of the limits list carries it with a supported name and a strictly
positive quantity. -/
theorem mem_limitsFound (x : String) (l : List (String × Int)) :
    ∀ found, x ∈ limitsFound found l ↔
      x ∈ found ∨ (isSupportedQoSComputeResource x = true ∧ ∃ q, (x, q) ∈ l ∧ 0 < q) := by
  induction l with
  | nil => intro found; simp [limitsFound]
  | cons nq rest ih =>
    intro found
    by_cases hc : isSupportedQoSComputeResource nq.1 ∧ 0 < nq.2
    · have hstep : limitsFound found (nq :: rest)
          = limitsFound (if nq.1 ∈ found then found else nq.1 :: found) rest := by
        simp only [limitsFound, List.foldl_cons]
        rw [if_pos hc]
      have hins : x ∈ (if nq.1 ∈ found then found else nq.1 :: found) ↔
          x = nq.1 ∨ x ∈ found := by
        split
        · next hmem =>
          constructor
          · exact Or.inr
          · rintro (rfl | h)
            · exact hmem
            · exact h
        · simp [List.mem_cons]
      rw [hstep, ih, hins]
      constructor
      · rintro ((rfl | hf) | hrest)
        · refine Or.inr ⟨hc.1, nq.2, ?_, hc.2⟩
          rw [Prod.mk.eta]
          exact List.mem_cons_self nq rest
        · exact Or.inl hf
        · rcases hrest with ⟨hsup, q', hq', hpos⟩
          exact Or.inr ⟨hsup, q', List.mem_cons_of_mem _ hq', hpos⟩
      · rintro (hf | ⟨hsup, q', hmem, hpos⟩)
        · exact Or.inl (Or.inr hf)
        · rcases List.mem_cons.mp hmem with heq | hmem'
          · exact Or.inl (Or.inl (congrArg Prod.fst heq))
          · exact Or.inr ⟨hsup, q', hmem', hpos⟩
    · have hstep : limitsFound found (nq :: rest) = limitsFound found rest := by
        simp only [limitsFound, List.foldl_cons]
        rw [if_neg hc]
      rw [hstep, ih]
      constructor
      · rintro (hf | hrest)
        · exact Or.inl hf
        · rcases hrest with ⟨hsup, q', hq', hpos⟩
          exact Or.inr ⟨hsup, q', List.mem_cons_of_mem _ hq', hpos⟩
      · rintro (hf | ⟨hsup, q', hmem, hpos⟩)
        · exact Or.inl hf
        · rcases List.mem_cons.mp hmem with heq | hmem'
          · exfalso
            apply hc
            have hx : x = nq.1 := congrArg Prod.fst heq
            have hq : q' = nq.2 := congrArg Prod.snd heq
            exact ⟨hx ▸ hsup, hq ▸ hpos⟩
          · exact Or.inr ⟨hsup, q', hmem', hpos⟩

/-- A single container qualifies (`HasAll(memory, cpu)` on its
`qosLimitsFound`) exactly when it has strictly positive cpu and memory
limits. -/
theorem hasAll_limitsFound_iff (lims : List (String × Int)) :
    hasAllMemCpu (limitsFound [] lims) = true ↔ containerGuaranteedOK lims := by
  have h1 : isSupportedQoSComputeResource "memory" = true := by decide
  have h2 : isSupportedQoSComputeResource "cpu" = true := by decide
  unfold hasAllMemCpu
  rw [Bool.and_eq_true, decide_eq_true_eq, decide_eq_true_eq,
    mem_limitsFound, mem_limitsFound]
  simp only [List.not_mem_nil, false_or, h1, h2, true_and]
  exact And.comm

/-- Projection of the container fold: the `isGuaranteed` flag is the
conjunction over all containers of the per-container check. -/
theorem foldl_aggStep_isGuaranteed (l : List (String × ContainerResources)) :
    ∀ st : AggState, (l.foldl aggStep st).isGuaranteed
      = (st.isGuaranteed && l.all fun c => hasAllMemCpu (limitsFound [] c.2.Limits)) := by
  induction l with
  | nil => intro st; simp
  | cons c rest ih =>
    intro st
    rw [List.foldl_cons, ih (aggStep st c)]
    have hstep : (aggStep st c).isGuaranteed
        = (st.isGuaranteed && hasAllMemCpu (limitsFound [] c.2.Limits)) := by
      unfold aggStep
      dsimp only
      rw [processLimits_snd]
    rw [hstep, List.all_cons, Bool.and_assoc]

/-- The pod-wide `isGuaranteed` flag survives the container loop exactly
when every container qualifies. -/
theorem aggregate_isGuaranteed_iff (l : List (String × ContainerResources)) :
    (aggregate l).isGuaranteed = true ↔ ∀ c ∈ l, containerGuaranteedOK c.2.Limits := by
  unfold aggregate
  rw [foldl_aggStep_isGuaranteed]
  simp only [Bool.true_and, List.all_eq_true]
  exact forall_congr' fun c => forall_congr' fun _ => hasAll_limitsFound_iff c.2.Limits

/-- The requests-match-limits loop succeeds exactly when every aggregated
request is exactly matched. -/
theorem requestsMatchLimits_iff (rq lm : List (String × Int)) :
    requestsMatchLimits rq lm = true ↔ ∀ nq ∈ rq, lookupA lm nq.1 = some nq.2 := by
  unfold requestsMatchLimits
  rw [List.all_eq_true]
  refine forall_congr' fun nq => forall_congr' fun _ => ?_
  cases h : lookupA lm nq.1 with
  | none => simp
  | some lim => simp [beq_iff_eq]

/-- Under a non-empty aggregate the classifier returns Guaranteed or
Burstable, never BestEffort. -/
theorem computeQOS_g_or_b (r : PodResourceRequirements)
    (hne : ¬((aggregate r.Containers).requests = [] ∧
      (aggregate r.Containers).limits = [])) :
    computeQOS r = "Guaranteed" ∨ computeQOS r = "Burstable" := by
  unfold computeQOS
  dsimp only
  rw [if_neg hne]
  split
  · exact Or.inl rfl
  · exact Or.inr rfl

/-- Under a non-empty aggregate the classifier returns Guaranteed exactly
when the three Guaranteed conditions hold. -/
theorem computeQOS_guaranteed_iff (r : PodResourceRequirements)
    (hne : ¬((aggregate r.Containers).requests = [] ∧
      (aggregate r.Containers).limits = [])) :
    computeQOS r = "Guaranteed" ↔ guaranteedConditions r := by
  unfold computeQOS
  dsimp only
  rw [if_neg hne]
  have key : ∀ (c : Prop) (inst : Decidable c),
      ((if c then "Guaranteed" else "Burstable") : String) = "Guaranteed" ↔ c := by
    intro c inst
    split
    · next hcc => simp [hcc]
    · next hcc =>
      constructor
      · intro hb; exact absurd hb (by decide)
      · intro hc'; exact absurd hc' hcc
  rw [key]
  rw [Bool.and_eq_true, Bool.and_eq_true, beq_iff_eq]
  rw [aggregate_isGuaranteed_iff, requestsMatchLimits_iff]
  unfold guaranteedConditions
  tauto

/-- C1: for a pod with a non-empty aggregate of cpu/memory requests or
limits (class not yet memoized), `GetPodQOS` returns Guaranteed exactly when
every container has strictly positive cpu and memory limits, every
aggregated request is exactly matched by an aggregated limit, and the two
aggregates have the same number of distinct resource kinds; otherwise it
returns Burstable. -/
theorem c1_getPodQOS_guaranteed_iff (p : Pod) (r : PodResourceRequirements)
    (hq : p.QOSClass = "") (hr : p.Resources = some r)
    (hne : ¬((aggregate r.Containers).requests = [] ∧
      (aggregate r.Containers).limits = [])) :
    ((∃ p', GetPodQOS p = some ("Guaranteed", p')) ↔ guaranteedConditions r) ∧
    (¬guaranteedConditions r → ∃ p', GetPodQOS p = some ("Burstable", p')) := by
  have hget : GetPodQOS p
      = some (computeQOS r, { p with Resources := some r, QOSClass := computeQOS r }) := by
    unfold GetPodQOS
    rw [if_neg (by simp [hq])]
    rw [hr]
  constructor
  · constructor
    · rintro ⟨p', hp'⟩
      rw [hget] at hp'
      have h12 := Option.some.inj hp'
      have hg : computeQOS r = "Guaranteed" := congrArg Prod.fst h12
      exact (computeQOS_guaranteed_iff r hne).mp hg
    · intro hcond
      have hg : computeQOS r = "Guaranteed" := (computeQOS_guaranteed_iff r hne).mpr hcond
      exact ⟨{ p with Resources := some r, QOSClass := computeQOS r }, by rw [hget, hg]⟩
  · intro hncond
    have hb : computeQOS r = "Burstable" := by
      rcases computeQOS_g_or_b r hne with hg | hb
      · exact absurd ((computeQOS_guaranteed_iff r hne).mp hg) hncond
      · exact hb
    exact ⟨{ p with Resources := some r, QOSClass := computeQOS r }, by rw [hget, hb]⟩

/-- C1 witness: the one-container pod with equal complete requests and
limits classifies Guaranteed. -/
theorem c1_witness :
    podGuaranteed.QOSClass = "" ∧ podGuaranteed.Resources = some rGuaranteed ∧
    ¬((aggregate rGuaranteed.Containers).requests = [] ∧
      (aggregate rGuaranteed.Containers).limits = []) ∧
    (((∃ p', GetPodQOS podGuaranteed = some ("Guaranteed", p')) ↔
        guaranteedConditions rGuaranteed) ∧
      (¬guaranteedConditions rGuaranteed →
        ∃ p', GetPodQOS podGuaranteed = some ("Burstable", p'))) :=
  ⟨rfl, rfl, by decide,
   c1_getPodQOS_guaranteed_iff podGuaranteed rGuaranteed rfl rfl (by decide)⟩

/-! ## Digit-string lemmas for the annotation round trip -/

/-- Decoding inverts encoding on single digits. -/
theorem charToDigit_digitChar : ∀ d, d < 16 → charToDigit (digitChar d) = some d := by
  decide

/-- Digit characters are never sign characters, and only the digit 0 renders
as the character `0`. -/
theorem digitChar_shape :
    ∀ d, d < 16 → digitChar d ≠ '-' ∧ digitChar d ≠ '+' ∧ (d ≠ 0 → digitChar d ≠ '0') := by
  decide

/-- Any sufficient fuel yields the same digit list. -/
theorem toDigitsRevF_irrel :
    ∀ f₁ f₂ b n, n ≤ f₁ → n ≤ f₂ → toDigitsRevF f₁ b n = toDigitsRevF f₂ b n := by
  intro f₁
  induction f₁ with
  | zero =>
    intro f₂ b n h1 _
    have : n = 0 := Nat.le_zero.mp h1
    subst this
    cases f₂ with
    | zero => rfl
    | succ f₂ => simp [toDigitsRevF]
  | succ f₁ ih =>
    intro f₂ b n h1 h2
    cases f₂ with
    | zero =>
      have : n = 0 := Nat.le_zero.mp h2
      subst this
      simp [toDigitsRevF]
    | succ f₂ =>
      show toDigitsRevF (f₁ + 1) b n = toDigitsRevF (f₂ + 1) b n
      unfold toDigitsRevF
      by_cases hc : n = 0 ∨ b < 2
      · rw [if_pos hc, if_pos hc]
      · rw [if_neg hc, if_neg hc]
        push_neg at hc
        have hdiv : n / b < n := Nat.div_lt_self (Nat.pos_of_ne_zero hc.1) (by omega)
        rw [ih f₂ b (n / b) (by omega) (by omega)]

/-- The recurrence of the digit expansion. -/
theorem toDigitsRev_eq (b n : Nat) :
    toDigitsRev b n = if n = 0 ∨ b < 2 then [] else (n % b) :: toDigitsRev b (n / b) := by
  cases n with
  | zero => simp [toDigitsRev, toDigitsRevF]
  | succ m =>
    show toDigitsRevF (m + 1) b (m + 1) = _
    unfold toDigitsRevF
    by_cases hc : m + 1 = 0 ∨ b < 2
    · rw [if_pos hc, if_pos hc]
    · rw [if_neg hc, if_neg hc]
      push_neg at hc
      have hdiv : (m + 1) / b < m + 1 := Nat.div_lt_self (by omega) (by omega)
      rw [toDigitsRevF_irrel m ((m + 1) / b) b ((m + 1) / b) (by omega) (le_refl _)]
      rfl

/-- Every produced digit is below the base. -/
theorem toDigitsRev_lt (b : Nat) (hb : 2 ≤ b) :
    ∀ n, ∀ d ∈ toDigitsRev b n, d < b := by
  intro n
  induction n using Nat.strong_induction_on with
  | _ n ih =>
    intro d hd
    rw [toDigitsRev_eq] at hd
    by_cases hc : n = 0 ∨ b < 2
    · rw [if_pos hc] at hd
      cases hd
    · rw [if_neg hc] at hd
      push_neg at hc
      rcases List.mem_cons.mp hd with rfl | hd'
      · exact Nat.mod_lt n (by omega)
      · exact ih (n / b) (Nat.div_lt_self (Nat.pos_of_ne_zero hc.1) (by omega)) d hd'

/-- The digit list of a nonzero number is nonempty. -/
theorem toDigitsRev_ne_nil (b n : Nat) (hb : 2 ≤ b) (hn : n ≠ 0) :
    toDigitsRev b n ≠ [] := by
  rw [toDigitsRev_eq, if_neg (by omega)]
  simp

/-- The digit list of a nonzero number ends in a nonzero digit (the leading
digit of the rendered string). -/
theorem toDigitsRev_last (b : Nat) (hb : 2 ≤ b) :
    ∀ n, n ≠ 0 → ∃ l d, toDigitsRev b n = l ++ [d] ∧ d ≠ 0 ∧ d < b := by
  intro n
  induction n using Nat.strong_induction_on with
  | _ n ih =>
    intro hn
    rw [toDigitsRev_eq, if_neg (by omega)]
    by_cases hd : n / b = 0
    · have hnb : n < b := (Nat.div_eq_zero_iff (by omega)).mp hd
      refine ⟨[], n % b, ?_, ?_, Nat.mod_lt n (by omega)⟩
      · rw [hd]
        show (n % b) :: toDigitsRev b 0 = [] ++ [n % b]
        rfl
      · rw [Nat.mod_eq_of_lt hnb]
        exact hn
    · obtain ⟨l, d, heq, hd0, hdb⟩ :=
        ih (n / b) (Nat.div_lt_self (Nat.pos_of_ne_zero hn) (by omega)) hd
      refine ⟨n % b :: l, d, ?_, hd0, hdb⟩
      rw [heq]
      rfl

/-- Parsing a rendered digit list accumulates left to right. -/
theorem parseDigitsAux_map (b : Nat) (hb : b ≤ 16) :
    ∀ (ds : List Nat) (acc : Nat), (∀ d ∈ ds, d < b) →
      parseDigitsAux b acc (ds.map digitChar)
        = some (ds.foldl (fun a d => a * b + d) acc) := by
  intro ds
  induction ds with
  | nil => intro acc _; rfl
  | cons d rest ih =>
    intro acc hall
    have hd : d < b := hall d (List.mem_cons_self d rest)
    rw [List.map_cons]
    show (match charToDigit (digitChar d) with
      | some d' => if d' < b then parseDigitsAux b (acc * b + d') (rest.map digitChar) else none
      | none => none) = _
    rw [charToDigit_digitChar d (by omega)]
    show (if d < b then parseDigitsAux b (acc * b + d) (rest.map digitChar) else none) = _
    rw [if_pos hd]
    rw [ih (acc * b + d) (fun x hx => hall x (List.mem_cons_of_mem d hx))]
    rfl

/-- Folding the reversed digits reconstructs the little-endian value. -/
theorem foldl_digits_reverse (b : Nat) :
    ∀ (l : List Nat) (acc : Nat),
      l.reverse.foldl (fun a d => a * b + d) acc = acc * b ^ l.length + ofDigitsRev b l := by
  intro l
  induction l with
  | nil => intro acc; simp [ofDigitsRev]
  | cons d rest ih =>
    intro acc
    rw [List.reverse_cons, List.foldl_append, ih acc]
    show (acc * b ^ rest.length + ofDigitsRev b rest) * b + d
        = acc * b ^ (d :: rest).length + ofDigitsRev b (d :: rest)
    rw [List.length_cons, pow_succ,
      show ofDigitsRev b (d :: rest) = d + b * ofDigitsRev b rest from rfl]
    ring

/-- Digit expansion round trip on naturals. -/
theorem ofDigitsRev_toDigitsRev (b : Nat) (hb : 2 ≤ b) :
    ∀ n, ofDigitsRev b (toDigitsRev b n) = n := by
  intro n
  induction n using Nat.strong_induction_on with
  | _ n ih =>
    rw [toDigitsRev_eq]
    by_cases hc : n = 0 ∨ b < 2
    · rw [if_pos hc]
      rcases hc with rfl | hc
      · rfl
      · omega
    · rw [if_neg hc]
      push_neg at hc
      unfold ofDigitsRev
      rw [ih (n / b) (Nat.div_lt_self (Nat.pos_of_ne_zero hc.1) (by omega))]
      exact Nat.mod_add_div n b

/-- Parsing the rendered digits of a nonzero number in its base recovers
it. -/
theorem parseDigits_toDigits (b n : Nat) (hb2 : 2 ≤ b) (hb16 : b ≤ 16) (hn : n ≠ 0) :
    parseDigits b ((toDigitsRev b n).reverse.map digitChar) = some n := by
  have hne : toDigitsRev b n ≠ [] := toDigitsRev_ne_nil b n hb2 hn
  have haux : parseDigitsAux b 0 ((toDigitsRev b n).reverse.map digitChar) = some n := by
    rw [parseDigitsAux_map b hb16 (toDigitsRev b n).reverse 0
      (fun d hd => toDigitsRev_lt b hb2 n d (List.mem_reverse.mp hd))]
    rw [foldl_digits_reverse b (toDigitsRev b n) 0]
    rw [ofDigitsRev_toDigitsRev b hb2 n]
    rw [Nat.zero_mul, Nat.zero_add]
  cases hcs : (toDigitsRev b n).reverse.map digitChar with
  | nil =>
    exfalso
    apply hne
    have : (toDigitsRev b n).reverse = [] := by
      cases hrev : (toDigitsRev b n).reverse with
      | nil => rfl
      | cons c cs =>
        rw [hrev] at hcs
        cases hcs
    simpa using this
  | cons c cs =>
    show parseDigitsAux b 0 (c :: cs) = some n
    rw [← hcs]
    exact haux

/-! ### String-shape lemmas -/

/-- Data of the rendered base string of a nonzero number. -/
theorem data_natToBaseString (b n : Nat) (hn : n ≠ 0) :
    (natToBaseString b n).data = (toDigitsRev b n).reverse.map digitChar := by
  unfold natToBaseString
  rw [if_neg hn]

/-- String append concatenates the character data. -/
theorem data_append_chars (s t : String) : (s ++ t).data = s.data ++ t.data := by
  cases s
  cases t
  rfl

/-- A string whose head is not a base-prefix zero parses in base 10. -/
theorem detectBase_of_head_ne (c : Char) (cs : List Char) (hc : c ≠ '0') :
    detectBase (c :: cs) = (10, c :: cs) := by
  cases cs with
  | nil => rfl
  | cons c₁ rest =>
    show (if c = '0' then _ else (10, c :: c₁ :: rest)) = (10, c :: c₁ :: rest)
    rw [if_neg hc]

/-- The hexadecimal prefix selects base 16. -/
theorem detectBase_hex (rest : List Char) : detectBase ('0' :: 'x' :: rest) = (16, rest) := by
  show (if '0' = '0' then
      if 'x' = 'x' ∨ 'x' = 'X' then (16, rest)
      else if 'x' = 'o' ∨ 'x' = 'O' then (8, rest)
      else if 'x' = 'b' ∨ 'x' = 'B' then (2, rest)
      else (8, 'x' :: rest)
    else (10, '0' :: 'x' :: rest)) = (16, rest)
  rw [if_pos rfl, if_pos (Or.inl rfl)]

/-- A non-sign head character is kept by sign splitting. -/
theorem splitSign_of_head_ne (c : Char) (cs : List Char)
    (h1 : c ≠ '-') (h2 : c ≠ '+') : splitSign (c :: cs) = (false, c :: cs) := by
  show (if c = '-' then (true, cs)
      else if c = '+' then (false, cs) else (false, c :: cs)) = (false, c :: cs)
  rw [if_neg h1, if_neg h2]

/-- A minus head character is consumed by sign splitting. -/
theorem splitSign_minus (cs : List Char) : splitSign ('-' :: cs) = (true, cs) := by
  show (if ('-' : Char) = '-' then (true, cs)
      else if ('-' : Char) = '+' then (false, cs) else (false, '-' :: cs)) = (true, cs)
  rw [if_pos rfl]

/-! ### Round trips of the built-in scalar decoders -/

/-- `ParseUint` inverts the decimal rendering. -/
theorem goParseUint_decimal (n : Nat) (hn : n < 2 ^ 64) :
    goParseUint (natToBaseString 10 n) 64 = some n := by
  by_cases h0 : n = 0
  · subst h0
    decide
  · obtain ⟨l, d, heq, hd0, hdb⟩ := toDigitsRev_last 10 (by omega) n h0
    have hdata := data_natToBaseString 10 n h0
    have hshape : (toDigitsRev 10 n).reverse.map digitChar
        = digitChar d :: (l.reverse.map digitChar) := by
      rw [heq]
      simp [List.reverse_append]
    have hhead : digitChar d ≠ '0' := (digitChar_shape d (by omega)).2.2 hd0
    unfold goParseUint
    dsimp only
    rw [hdata, hshape, detectBase_of_head_ne _ _ hhead]
    dsimp only
    rw [← hshape, parseDigits_toDigits 10 n (by omega) (by omega) h0]
    dsimp only
    rw [if_pos hn]

/-- `ParseUint` inverts the hexadecimal-prefixed rendering. -/
theorem goParseUint_hex (n : Nat) (hn : n < 2 ^ 64) :
    goParseUint (natToHexString n) 64 = some n := by
  have hdata : (natToHexString n).data = '0' :: 'x' :: (natToBaseString 16 n).data := by
    unfold natToHexString
    rw [data_append_chars]
    rfl
  by_cases h0 : n = 0
  · subst h0
    decide
  · unfold goParseUint
    dsimp only
    rw [hdata, detectBase_hex]
    dsimp only
    rw [data_natToBaseString 16 n h0, parseDigits_toDigits 16 n (by omega) (by omega) h0]
    dsimp only
    rw [if_pos hn]

/-- `ParseInt` inverts the decimal rendering over the 64-bit signed range. -/
theorem goParseInt_decimal (i : Int) (hlo : -(2 ^ 63) ≤ i) (hhi : i < 2 ^ 63) :
    goParseInt (intToDecString i) 64 = some i := by
  have hpow : ((2 : Int) ^ 63) = 9223372036854775808 := by norm_num
  rw [hpow] at hlo hhi
  by_cases hneg : i < 0
  · have habs : i.natAbs ≠ 0 := by omega
    have hdata : (intToDecString i).data = '-' :: (natToBaseString 10 i.natAbs).data := by
      unfold intToDecString
      rw [if_pos hneg, data_append_chars]
      rfl
    obtain ⟨l, d, heq, hd0, hdb⟩ := toDigitsRev_last 10 (by omega) i.natAbs habs
    have hshape : (toDigitsRev 10 i.natAbs).reverse.map digitChar
        = digitChar d :: (l.reverse.map digitChar) := by
      rw [heq]
      simp [List.reverse_append]
    have hhead : digitChar d ≠ '0' := (digitChar_shape d (by omega)).2.2 hd0
    unfold goParseInt
    dsimp only
    rw [hdata, splitSign_minus]
    dsimp only
    rw [data_natToBaseString 10 i.natAbs habs, hshape, detectBase_of_head_ne _ _ hhead]
    dsimp only
    rw [← hshape, parseDigits_toDigits 10 i.natAbs (by omega) (by omega) habs]
    dsimp only
    rw [if_pos rfl]
    have hle : i.natAbs ≤ 2 ^ (64 - 1) := by
      show i.natAbs ≤ 2 ^ 63
      omega
    rw [if_pos hle]
    congr 1
    omega
  · by_cases h0 : i = 0
    · subst h0
      decide
    · have hn0 : i.toNat ≠ 0 := by omega
      have hdata : intToDecString i = natToBaseString 10 i.toNat := by
        unfold intToDecString
        rw [if_neg hneg]
      obtain ⟨l, d, heq, hd0, hdb⟩ := toDigitsRev_last 10 (by omega) i.toNat hn0
      have hshape : (toDigitsRev 10 i.toNat).reverse.map digitChar
          = digitChar d :: (l.reverse.map digitChar) := by
        rw [heq]
        simp [List.reverse_append]
      have hsh := digitChar_shape d (by omega)
      unfold goParseInt
      dsimp only
      rw [hdata, data_natToBaseString 10 i.toNat hn0, hshape,
        splitSign_of_head_ne _ _ hsh.1 hsh.2.1]
      dsimp only
      rw [detectBase_of_head_ne _ _ (hsh.2.2 hd0)]
      dsimp only
      rw [← hshape, parseDigits_toDigits 10 i.toNat (by omega) (by omega) hn0]
      dsimp only
      rw [if_neg (by decide)]
      have hlt : i.toNat < 2 ^ (64 - 1) := by
        show i.toNat < 2 ^ 63
        omega
      rw [if_pos hlt]
      congr 1
      omega

/-- `ParseInt` inverts the hexadecimal-prefixed rendering over the 64-bit
signed range. -/
theorem goParseInt_hex (i : Int) (hlo : -(2 ^ 63) ≤ i) (hhi : i < 2 ^ 63) :
    goParseInt (intToHexString i) 64 = some i := by
  have hpow : ((2 : Int) ^ 63) = 9223372036854775808 := by norm_num
  rw [hpow] at hlo hhi
  by_cases hneg : i < 0
  · have habs : i.natAbs ≠ 0 := by omega
    have hdata : (intToHexString i).data
        = '-' :: '0' :: 'x' :: (natToBaseString 16 i.natAbs).data := by
      unfold intToHexString natToHexString
      rw [if_pos hneg, data_append_chars, data_append_chars]
      rfl
    unfold goParseInt
    dsimp only
    rw [hdata, splitSign_minus]
    dsimp only
    rw [detectBase_hex]
    dsimp only
    rw [data_natToBaseString 16 i.natAbs habs,
      parseDigits_toDigits 16 i.natAbs (by omega) (by omega) habs]
    dsimp only
    rw [if_pos rfl]
    have hle : i.natAbs ≤ 2 ^ (64 - 1) := by
      show i.natAbs ≤ 2 ^ 63
      omega
    rw [if_pos hle]
    congr 1
    omega
  · by_cases h0 : i = 0
    · subst h0
      decide
    · have hn0 : i.toNat ≠ 0 := by omega
      have hdata : (intToHexString i).data
          = '0' :: 'x' :: (natToBaseString 16 i.toNat).data := by
        unfold intToHexString natToHexString
        rw [if_neg hneg, data_append_chars]
        rfl
      unfold goParseInt
      dsimp only
      rw [hdata, splitSign_of_head_ne '0' _ (by decide) (by decide)]
      dsimp only
      rw [detectBase_hex]
      dsimp only
      rw [data_natToBaseString 16 i.toNat hn0,
        parseDigits_toDigits 16 i.toNat (by omega) (by omega) hn0]
      dsimp only
      rw [if_neg (by decide)]
      have hlt : i.toNat < 2 ^ (64 - 1) := by
        show i.toNat < 2 ^ 63
        omega
      rw [if_pos hlt]
      congr 1
      omega

/-- `ParseBool` inverts `FormatBool`. -/
theorem goParseBool_roundtrip (b : Bool) :
    goParseBool (cond b "true" "false") = some b := by
  cases b <;> decide

/-- Decoding a single-annotation pod reduces to the built-in decoder of the
stored value. -/
theorem GAO_mkAnnPod (jsonDec : String → Except String PodResourceRequirements)
    (key enc : String) (tag : AnnTag) :
    GetAnnotationObject jsonDec (mkAnnPod key enc) key tag none
      = match defaultDecode jsonDec tag enc with
        | .ok v => ⟨true, some v, none⟩
        | .error e => ⟨true, none, some e⟩ := by
  have hl : GetAnnotation (mkAnnPod key enc) key = some enc := by
    unfold GetAnnotation mkAnnPod lookupA
    rw [if_pos rfl]
  unfold GetAnnotationObject
  rw [hl]

/-- C7: `GetAnnotationObject` with no custom decoder round-trips the string
encodings of all built-in scalar target types — strings verbatim, booleans,
and the four integer types over their full 64-bit ranges, in decimal and in
hexadecimal-prefixed form. -/
theorem c7_annotation_roundtrip
    (jsonDec : String → Except String PodResourceRequirements)
    (key s : String) (b : Bool) (i : Int) (n : Nat)
    (hlo : -(2 ^ 63) ≤ i) (hhi : i < 2 ^ 63) (hn : n < 2 ^ 64) :
    c7Prop jsonDec key s b i n := by
  unfold c7Prop
  refine ⟨?_, ?_, ?_, ?_, ?_, ?_, ?_, ?_, ?_, ?_⟩
  · rw [GAO_mkAnnPod]
    rfl
  · rw [GAO_mkAnnPod]
    unfold defaultDecode
    rw [goParseBool_roundtrip]
  · rw [GAO_mkAnnPod]
    unfold defaultDecode
    rw [goParseInt_decimal i hlo hhi]
  · rw [GAO_mkAnnPod]
    unfold defaultDecode
    rw [goParseInt_decimal i hlo hhi]
  · rw [GAO_mkAnnPod]
    unfold defaultDecode
    rw [goParseInt_hex i hlo hhi]
  · rw [GAO_mkAnnPod]
    unfold defaultDecode
    rw [goParseInt_hex i hlo hhi]
  · rw [GAO_mkAnnPod]
    unfold defaultDecode
    rw [goParseUint_decimal n hn]
  · rw [GAO_mkAnnPod]
    unfold defaultDecode
    rw [goParseUint_decimal n hn]
  · rw [GAO_mkAnnPod]
    unfold defaultDecode
    rw [goParseUint_hex n hn]
  · rw [GAO_mkAnnPod]
    unfold defaultDecode
    rw [goParseUint_hex n hn]

/-- C7 witness: concrete round trips, including a negative value and the
hexadecimal forms. -/
theorem c7_witness :
    (-(2 ^ 63) ≤ (-26 : Int)) ∧ ((-26 : Int) < 2 ^ 63) ∧ ((31 : Nat) < 2 ^ 64) ∧
    c7Prop decFail "k" "v" true (-26) 31 :=
  ⟨by norm_num, by norm_num, by norm_num,
   c7_annotation_roundtrip decFail "k" "v" true (-26) 31
     (by norm_num) (by norm_num) (by norm_num)⟩

end CriCache
